import Mathlib

/-!
Verification development for the tfbreak plugin SDK: a shallow embedding of
the value-marshaling layer (plugin/convert.go), the rule registry and
enablement policy (tflint BuiltinRuleSet), the Check orchestrators error
aggregation (plugin/grpc_plugin.go), the host-side metadata getters, the
helper test Runner (helper package), and the EmitIssue bridge
(plugin/grpc_runner.go), together with theorems settling the frozen claims.

Go conventions used throughout the embedding: nilable pointers become
`Option`, Go maps become association lists with unique keys (uniqueness is a
hypothesis where it matters), Go slices become `List`, Go `int`/`int64`
become `Int`, and a function returning `error` returns an `Option String`
(`none` = nil error) or an `Except String` result.
-/

/-! ## Positions, ranges, severity (hcl.Pos, hcl.Range, tflint.Severity) -/

/-- hcl.Pos: Line, Column, Byte (Go ints). -/
structure Pos where
  line : Int
  column : Int
  byte : Int
deriving DecidableEq, Repr

/-- The zero value hcl.Pos given by the Go composite literal hcl.Pos-zero. -/
def Pos.zero : Pos := ⟨0, 0, 0⟩

/-- hcl.Range: Filename, Start, End. -/
structure Range where
  filename : String
  start : Pos
  stop : Pos
deriving DecidableEq, Repr

/-- The zero value hcl.Range. -/
def Range.zero : Range := ⟨"", Pos.zero, Pos.zero⟩

/-- proto.Position (all fields int64). -/
structure PbPosition where
  line : Int
  column : Int
  byte : Int
deriving DecidableEq, Repr

/-- proto.Range; Start and End are message pointers, hence nilable. -/
structure PbRange where
  filename : String
  start : Option PbPosition
  stop : Option PbPosition
deriving DecidableEq, Repr

/-- tflint.Severity is a Go int; ERROR=1, WARNING=2, NOTICE=3. -/
abbrev Severity := Int

def Severity.ERROR : Severity := 1

def Severity.WARNING : Severity := 2

def Severity.NOTICE : Severity := 3

/-- proto.Severity closed enum as generated from the wire schema. -/
inductive PbSeverity where
  | unspecified
  | error
  | warning
  | notice
deriving DecidableEq, Repr

/-- convert.go toProtoPosition: field for field, int to int64. -/
def toProtoPosition (p : Pos) : PbPosition :=
  ⟨p.line, p.column, p.byte⟩

/-- convert.go fromProtoPosition: nil yields the zero hcl.Pos. -/
def fromProtoPosition : Option PbPosition → Pos
  | none => Pos.zero
  | some p => ⟨p.line, p.column, p.byte⟩

/-- convert.go toProtoRange: always returns a non-nil message. -/
def toProtoRange (r : Range) : PbRange :=
  ⟨r.filename, some (toProtoPosition r.start), some (toProtoPosition r.stop)⟩

/-- convert.go fromProtoRange: nil yields the zero hcl.Range. -/
def fromProtoRange : Option PbRange → Range
  | none => Range.zero
  | some r => ⟨r.filename, fromProtoPosition r.start, fromProtoPosition r.stop⟩

/-- convert.go toProtoSeverity: the three named values map to their wire
names; any other int falls to SEVERITY_UNSPECIFIED. -/
def toProtoSeverity (s : Severity) : PbSeverity :=
  if s = Severity.ERROR then .error
  else if s = Severity.WARNING then .warning
  else if s = Severity.NOTICE then .notice
  else .unspecified

/-- convert.go fromProtoSeverity: unrecognized wire values decode to ERROR. -/
def fromProtoSeverity (s : PbSeverity) : Severity :=
  match s with
  | .error => Severity.ERROR
  | .warning => Severity.WARNING
  | .notice => Severity.NOTICE
  | .unspecified => Severity.ERROR

/-! ## Body schemas (hclext.BodySchema and proto.BodySchema) -/

/-- hclext.AttributeSchema. -/
structure AttributeSchema where
  name : String
  required : Bool
deriving DecidableEq, Repr

/-- proto.AttributeSchema. -/
structure PbAttributeSchema where
  name : String
  required : Bool
deriving DecidableEq, Repr

mutual
/-- hclext.BodySchema: attributes, blocks, mode (SchemaMode, a Go int). -/
inductive BodySchema where
  | mk (attributes : List AttributeSchema) (blocks : List BlockSchema)
      (mode : Int) : BodySchema

/-- hclext.BlockSchema: type, label names, nilable nested body schema. -/
inductive BlockSchema where
  | mk (type : String) (labelNames : List String)
      (body : Option BodySchema) : BlockSchema
end

mutual
/-- proto.BodySchema. -/
inductive PbBodySchema where
  | mk (attributes : List PbAttributeSchema) (blocks : List PbBlockSchema)
      (mode : Int) : PbBodySchema

/-- proto.BlockSchema. -/
inductive PbBlockSchema where
  | mk (type : String) (labelNames : List String)
      (body : Option PbBodySchema) : PbBlockSchema
end

def BodySchema.attributes : BodySchema → List AttributeSchema
  | .mk a _ _ => a

def BodySchema.blocks : BodySchema → List BlockSchema
  | .mk _ b _ => b

def BodySchema.mode : BodySchema → Int
  | .mk _ _ m => m

def BlockSchema.type : BlockSchema → String
  | .mk t _ _ => t

def BlockSchema.labelNames : BlockSchema → List String
  | .mk _ l _ => l

def BlockSchema.body : BlockSchema → Option BodySchema
  | .mk _ _ b => b

mutual
/-- convert.go toProtoBodySchema: nil maps to nil, otherwise a pure
structural copy, recursing through block bodies. -/
def toProtoBodySchema : Option BodySchema → Option PbBodySchema
  | none => none
  | some (.mk attrs blocks mode) =>
    some (.mk (attrs.map fun a => ⟨a.name, a.required⟩)
      (toProtoBlockSchemas blocks) mode)

def toProtoBlockSchemas : List BlockSchema → List PbBlockSchema
  | [] => []
  | b :: bs => toProtoBlockSchema b :: toProtoBlockSchemas bs

def toProtoBlockSchema : BlockSchema → PbBlockSchema
  | .mk t labels body => .mk t labels (toProtoBodySchema body)
end

mutual
/-- convert.go fromProtoBodySchema: inverse structural copy. -/
def fromProtoBodySchema : Option PbBodySchema → Option BodySchema
  | none => none
  | some (.mk attrs blocks mode) =>
    some (.mk (attrs.map fun a => ⟨a.name, a.required⟩)
      (fromProtoBlockSchemas blocks) mode)

def fromProtoBlockSchemas : List PbBlockSchema → List BlockSchema
  | [] => []
  | b :: bs => fromProtoBlockSchema b :: fromProtoBlockSchemas bs

def fromProtoBlockSchema : PbBlockSchema → BlockSchema
  | .mk t labels body => .mk t labels (fromProtoBodySchema body)
end


/-! ## Attribute values and expressions

An hcl.Expression cannot cross the process boundary. convert.go observes an
expression only through one attempt at static evaluation (Expr.Value(nil))
followed by a JSON marshal of the resulting cty value; the embedding models
an expression by the outcome of that observation: `staticValue = some v`
when the evaluation yields a known, non-null value that marshals without
error, `none` otherwise. The cty JSON encode/decode pair of the external
library is modelled as the identity on marshalled values. -/

/-- A marshalled cty value (self-describing typed JSON on the wire). -/
structure CtyValue where
  json : String
deriving DecidableEq, Repr

/-- An hcl.Expression, observed through static evaluation (see above). -/
structure Expr where
  staticValue : Option CtyValue
deriving DecidableEq, Repr

/-- hclext.Attribute: Name, nilable Expr, pre-evaluated Value (zero when it
was never populated), Range, NameRange. -/
structure Attribute where
  name : String
  expr : Option Expr
  value : Option CtyValue
  range : Range
  nameRange : Range
deriving DecidableEq, Repr

/-- proto.Attribute: ExprValue holds the marshalled bytes (none = empty). -/
structure PbAttribute where
  name : String
  exprValue : Option CtyValue
  range : Option PbRange
  nameRange : Option PbRange
deriving DecidableEq, Repr

/-- Body of convert.go toProtoAttribute on a non-nil attribute: the Expr, if
present and statically evaluable, is marshalled into ExprValue; the Value
field of the input is never read. -/
def toProtoAttributeCore (a : Attribute) : PbAttribute :=
  { name := a.name
    exprValue :=
      match a.expr with
      | some e => e.staticValue
      | none => none
    range := some (toProtoRange a.range)
    nameRange := some (toProtoRange a.nameRange) }

/-- convert.go toProtoAttribute (nil maps to nil). -/
def toProtoAttribute : Option Attribute → Option PbAttribute
  | none => none
  | some a => some (toProtoAttributeCore a)

/-- Body of convert.go fromProtoAttribute on a non-nil attribute: Expr is
never reconstructed; Value is decoded from ExprValue when non-empty. -/
def fromProtoAttributeCore (a : PbAttribute) : Attribute :=
  { name := a.name
    expr := none
    value := a.exprValue
    range := fromProtoRange a.range
    nameRange := fromProtoRange a.nameRange }

/-- convert.go fromProtoAttribute (nil maps to nil). -/
def fromProtoAttribute : Option PbAttribute → Option Attribute
  | none => none
  | some a => some (fromProtoAttributeCore a)

/-! ## Body content (hclext.BodyContent and proto.BodyContent) -/

mutual
/-- hclext.BodyContent: attribute map (association list with unique keys)
and ordered blocks. -/
inductive BodyContent where
  | mk (attributes : List (String × Attribute)) (blocks : List Block) :
      BodyContent

/-- hclext.Block: Type, Labels, nilable Body, DefRange, TypeRange,
LabelRanges. -/
inductive Block where
  | mk (type : String) (labels : List String) (body : Option BodyContent)
      (defRange : Range) (typeRange : Range) (labelRanges : List Range) :
      Block
end

mutual
/-- proto.BodyContent. -/
inductive PbBodyContent where
  | mk (attributes : List (String × PbAttribute)) (blocks : List PbBlock) :
      PbBodyContent

/-- proto.Block; the range fields are message pointers, hence nilable. -/
inductive PbBlock where
  | mk (type : String) (labels : List String) (body : Option PbBodyContent)
      (defRange : Option PbRange) (typeRange : Option PbRange)
      (labelRanges : List (Option PbRange)) : PbBlock
end

def BodyContent.attributes : BodyContent → List (String × Attribute)
  | .mk a _ => a

def BodyContent.blocks : BodyContent → List Block
  | .mk _ b => b

def Block.type : Block → String
  | .mk t _ _ _ _ _ => t

def Block.labels : Block → List String
  | .mk _ l _ _ _ _ => l

def Block.body : Block → Option BodyContent
  | .mk _ _ b _ _ _ => b

mutual
/-- convert.go toProtoBodyContent: nil maps to nil; attributes and blocks
are converted entrywise, recursing through block bodies. -/
def toProtoBodyContent : Option BodyContent → Option PbBodyContent
  | none => none
  | some (.mk attrs blocks) =>
    some (.mk (attrs.map fun p => (p.1, toProtoAttributeCore p.2))
      (toProtoBlocks blocks))

def toProtoBlocks : List Block → List PbBlock
  | [] => []
  | b :: bs => toProtoBlock b :: toProtoBlocks bs

/-- convert.go toProtoBlock on a non-nil block. -/
def toProtoBlock : Block → PbBlock
  | .mk t labels body defR typeR labelRs =>
    .mk t labels (toProtoBodyContent body) (some (toProtoRange defR))
      (some (toProtoRange typeR)) (labelRs.map fun r => some (toProtoRange r))
end

mutual
/-- convert.go fromProtoBodyContent: inverse entrywise conversion. -/
def fromProtoBodyContent : Option PbBodyContent → Option BodyContent
  | none => none
  | some (.mk attrs blocks) =>
    some (.mk (attrs.map fun p => (p.1, fromProtoAttributeCore p.2))
      (fromProtoBlocks blocks))

def fromProtoBlocks : List PbBlock → List Block
  | [] => []
  | b :: bs => fromProtoBlock b :: fromProtoBlocks bs

/-- convert.go fromProtoBlock on a non-nil block. -/
def fromProtoBlock : PbBlock → Block
  | .mk t labels body defR typeR labelRs =>
    .mk t labels (fromProtoBodyContent body) (fromProtoRange defR)
      (fromProtoRange typeR) (labelRs.map fromProtoRange)
end

/-- Snapshot of one attribute as it survives a wire crossing: the live
expression is replaced by its one-shot static value and dropped, and any
previously decoded Value that did not come from the expression is lost. -/
def snapshotAttribute (a : Attribute) : Attribute :=
  { name := a.name
    expr := none
    value :=
      match a.expr with
      | some e => e.staticValue
      | none => none
    range := a.range
    nameRange := a.nameRange }

mutual
/-- Snapshot of a body content as it survives a wire crossing: structure,
labels and ranges are kept; every attribute is snapshotted. -/
def snapshotBodyContent : Option BodyContent → Option BodyContent
  | none => none
  | some (.mk attrs blocks) =>
    some (.mk (attrs.map fun p => (p.1, snapshotAttribute p.2))
      (snapshotBlocks blocks))

def snapshotBlocks : List Block → List Block
  | [] => []
  | b :: bs => snapshotBlock b :: snapshotBlocks bs

def snapshotBlock : Block → Block
  | .mk t labels body defR typeR labelRs =>
    .mk t labels (snapshotBodyContent body) defR typeR labelRs
end


/-! ## Rules, configuration, and the enablement policy (tflint package) -/

/-- The value content of a tflint.Rule as the SDK observes it: Name, default
Enabled, Severity, Link. The executable Check body is modelled separately
where a claim needs it. -/
structure Rule where
  name : String
  enabled : Bool
  severity : Severity
  link : String
deriving DecidableEq, Repr

/-- tflint.RuleConfig (the raw HCL Body is not serialized over the wire and
plays no role in the enablement policy). -/
structure RuleConfig where
  name : String
  enabled : Bool
deriving DecidableEq, Repr

/-- tflint.Config. The Rules field is a Go map from rule name to RuleConfig,
modelled as an association list with unique keys. -/
structure Config where
  rules : List (String × RuleConfig)
  disabledByDefault : Bool
  only : List String
  pluginDir : String

/-- Update one key of an enablement map (Go map assignment). -/
def mapSet (m : String → Option Bool) (k : String) (v : Bool) :
    String → Option Bool :=
  fun x => if x = k then some v else m x

/-- ApplyGlobalConfig step 1: seed the map with each rule keyed by name at
its own default (later registrations overwrite earlier ones, as in Go). -/
def initEnabled (rules : List Rule) : String → Option Bool :=
  rules.foldl (fun m r => mapSet m r.name r.enabled) (fun _ => none)

/-- ApplyGlobalConfig: force every present key to false (used by the
DisabledByDefault step and the first half of the Only step). -/
def disableAll (m : String → Option Bool) : String → Option Bool :=
  fun x => (m x).map (fun _ => false)

/-- ApplyGlobalConfig Only step: force every key to false, then set true
for every Only name that is present in the registry. -/
def applyOnly (m : String → Option Bool) (only : List String) :
    String → Option Bool :=
  only.foldl (fun m n => if (m n).isSome then mapSet m n true else m)
    (disableAll m)

/-- ApplyGlobalConfig final step: for every map entry of cfg.Rules whose key
is registered, set the flag to that RuleConfig.Enabled. -/
def applyRuleConfigs (m : String → Option Bool)
    (rcs : List (String × RuleConfig)) : String → Option Bool :=
  rcs.foldl (fun m p => if (m p.1).isSome then mapSet m p.1 p.2.enabled else m)
    m

/-- The enablement map computed by BuiltinRuleSet.ApplyGlobalConfig, steps
1 to 5 in order: defaults, nil-config early return, DisabledByDefault,
Only, per-rule configuration. -/
def applyGlobalConfigMap (rules : List Rule) (cfg : Option Config) :
    String → Option Bool :=
  let m0 := initEnabled rules
  match cfg with
  | none => m0
  | some c =>
    let m1 := if c.disabledByDefault then disableAll m0 else m0
    let m2 := if c.only.length > 0 then applyOnly m1 c.only else m1
    applyRuleConfigs m2 c.rules

/-- tflint.BuiltinRuleSet: metadata, registered rules, and the private
enablement map, which is absent (Go nil map) until ApplyGlobalConfig runs. -/
structure BuiltinRuleSet where
  name : String
  version : String
  constraint : String
  rules : List Rule
  enabledRules : Option (String → Option Bool)

/-- BuiltinRuleSet.ApplyGlobalConfig: recomputes the enablement map and
returns the (always nil) error. -/
def BuiltinRuleSet.applyGlobalConfig (rs : BuiltinRuleSet)
    (cfg : Option Config) : BuiltinRuleSet × Option String :=
  ({ rs with enabledRules := some (applyGlobalConfigMap rs.rules cfg) }, none)

/-- BuiltinRuleSet.IsRuleEnabled: before configuration, fall back to the
first registered rule of that name and its own default (false when the name
is unknown); after configuration, read the map (Go map read of a missing
key yields false). -/
def BuiltinRuleSet.isRuleEnabled (rs : BuiltinRuleSet) (name : String) :
    Bool :=
  match rs.enabledRules with
  | none =>
    match rs.rules.find? (fun r => r.name = name) with
    | some r => r.enabled
    | none => false
  | some m => (m name).getD false

/-! ## The Check pass and its error aggregation (grpc_plugin.go)

GRPCRuleSetServer.Check iterates the enabled rules in registration order and
invokes each Check against the wrapped runner. A rule invocation is
modelled by its outcome: `checkResult = some e` when Check returned the
error with message e, `none` when it returned nil. The cancellation check
between rules and the broker dial concern the transport and are outside the
embedding; the claims quantify over passes in which every rule ran. -/

/-- One enabled rule of a Check pass together with the outcome of its Check
invocation. -/
structure CheckedRule where
  name : String
  checkResult : Option String
deriving DecidableEq, Repr

/-- The error accumulator after the rule loop: one entry per failing rule,
in order, each formatted as by fmt.Errorf with the rule name attached. -/
def checkErrors (rules : List CheckedRule) : List String :=
  rules.filterMap fun r =>
    r.checkResult.map fun e => "rule " ++ r.name ++ ": " ++ e

/-- grpc_plugin.go combineErrors: nil for no errors, the sole error
unwrapped for one, otherwise one error stating the count and joining the
individual messages with a semicolon separator. -/
def combineErrors (errs : List String) : Option String :=
  match errs with
  | [] => none
  | [e] => some e
  | _ =>
    some (toString errs.length ++ " rules failed: " ++
      String.intercalate "; " errs)

/-- The error result of GRPCRuleSetServer.Check after the rule loop: nil on
an empty accumulator, the combined error otherwise. -/
def checkPass (rules : List CheckedRule) : Option String :=
  let errs := checkErrors rules
  if errs.length > 0 then combineErrors errs else none

/-! ## Host-side metadata getters (GRPCRuleSetClient)

The generated gRPC client stub is external; the embedding models one stub
by the outcome of each unary call: `Except.error e` for a transport error,
`Except.ok resp` for a reply. Timeouts are part of the transport and are
outside the embedding. -/

/-- Outcomes of the five metadata RPCs for one client connection. -/
structure RuleSetRPC where
  getRuleSetName : Except String String
  getRuleSetVersion : Except String String
  getRuleNames : Except String (List String)
  getVersionConstraint : Except String String
  getConfigSchema : Except String (Option PbBodySchema)

/-- GRPCRuleSetClient.RuleSetName: empty string on any transport error. -/
def clientRuleSetName (c : RuleSetRPC) : String :=
  match c.getRuleSetName with
  | .error _ => ""
  | .ok n => n

/-- GRPCRuleSetClient.RuleSetVersion: empty string on any transport error. -/
def clientRuleSetVersion (c : RuleSetRPC) : String :=
  match c.getRuleSetVersion with
  | .error _ => ""
  | .ok v => v

/-- GRPCRuleSetClient.RuleNames: nil list on any transport error. -/
def clientRuleNames (c : RuleSetRPC) : List String :=
  match c.getRuleNames with
  | .error _ => []
  | .ok ns => ns

/-- GRPCRuleSetClient.VersionConstraint: empty string on any transport
error. -/
def clientVersionConstraint (c : RuleSetRPC) : String :=
  match c.getVersionConstraint with
  | .error _ => ""
  | .ok v => v

/-- GRPCRuleSetClient.ConfigSchema: nil schema on any transport error,
otherwise the decoded wire schema. -/
def clientConfigSchema (c : RuleSetRPC) : Option BodySchema :=
  match c.getConfigSchema with
  | .error _ => none
  | .ok s => fromProtoBodySchema s

/-! ## The hcl parse tree and PartialContent (external hcl library)

The helper Runner reads parsed hcl files through hcl.Body.PartialContent.
The parse tree and PartialContent belong to the external hcl library; they
are modelled here from their documented semantics: PartialContent returns
the attributes declared by the schema that are present in the body, and the
blocks whose type matches a block header schema with the same label count;
a required attribute that is absent, or a type-matched block with a label
count mismatch (such a block is skipped), raises diagnostics. -/

/-- hcl.Attribute: a parsed attribute always carries a live expression. -/
structure HclAttribute where
  name : String
  expr : Expr
  range : Range
  nameRange : Range
deriving DecidableEq, Repr

mutual
/-- A parsed hcl body. -/
inductive HclBody where
  | mk (attributes : List HclAttribute) (blocks : List HclBlock) : HclBody

/-- A parsed hcl block; its Body is never nil. -/
inductive HclBlock where
  | mk (type : String) (labels : List String) (body : HclBody)
      (defRange : Range) (typeRange : Range) (labelRanges : List Range) :
      HclBlock
end

def HclBody.attributes : HclBody → List HclAttribute
  | .mk a _ => a

def HclBody.blocks : HclBody → List HclBlock
  | .mk _ b => b

def HclBlock.type : HclBlock → String
  | .mk t _ _ _ _ _ => t

def HclBlock.labels : HclBlock → List String
  | .mk _ l _ _ _ _ => l

def HclBlock.body : HclBlock → HclBody
  | .mk _ _ b _ _ _ => b

/-- hcl.AttributeSchema. -/
structure HclAttributeSchema where
  name : String
  required : Bool
deriving DecidableEq, Repr

/-- hcl.BlockHeaderSchema. -/
structure HclBlockHeaderSchema where
  type : String
  labelNames : List String
deriving DecidableEq, Repr

/-- hcl.BodySchema (flat: block header schemas carry no nested body). -/
structure HclBodySchema where
  attributes : List HclAttributeSchema
  blocks : List HclBlockHeaderSchema
deriving DecidableEq, Repr

/-- bodycontent.go ToHCLBodySchema: nil to nil, otherwise the headers of
the extended schema (nested bodies are dropped). -/
def toHCLBodySchema : Option BodySchema → Option HclBodySchema
  | none => none
  | some s =>
    some ⟨s.attributes.map fun a => ⟨a.name, a.required⟩,
      s.blocks.map fun b => ⟨b.type, b.labelNames⟩⟩

/-- hcl.BodyContent as returned by PartialContent. -/
structure HclBodyContent where
  attributes : List (String × HclAttribute)
  blocks : List HclBlock

/-- hcl.Body.PartialContent, modelled from the hcl semantics described
above. The Bool is diags.HasErrors(). A nil schema is never passed by the
embedded callers (it would crash the Go library); it is mapped to an empty
schema here. -/
def hclPartialContent (body : HclBody) (schema : Option HclBodySchema) :
    HclBodyContent × Bool :=
  match schema with
  | none => (⟨[], []⟩, false)
  | some s =>
    let attrs := s.attributes.filterMap fun as =>
      (body.attributes.find? fun a => a.name == as.name).map
        fun a => (as.name, a)
    let missingRequired := s.attributes.any fun as =>
      as.required && !(body.attributes.any fun a => a.name == as.name)
    let blocks := body.blocks.filter fun b =>
      s.blocks.any fun bs =>
        bs.type == b.type && bs.labelNames.length == b.labels.length
    let labelMismatch := body.blocks.any fun b =>
      (s.blocks.any fun bs => bs.type == b.type) &&
        !(s.blocks.any fun bs =>
          bs.type == b.type && bs.labelNames.length == b.labels.length)
    (⟨attrs, blocks⟩, missingRequired || labelMismatch)

/-- bodycontent.go FromHCLAttribute: the live expression is kept. -/
def fromHCLAttribute (a : HclAttribute) : Attribute :=
  { name := a.name
    expr := some a.expr
    value := none
    range := a.range
    nameRange := a.nameRange }

/-- bodycontent.go FromHCLBlock: the body is left nil, to be populated by
the caller. -/
def fromHCLBlock (b : HclBlock) : Block :=
  .mk b.type b.labels none Range.zero Range.zero []

/-- bodycontent.go FromHCLBodyContent: attributes and blocks are converted
entrywise; nested block bodies are left nil. -/
def fromHCLBodyContent (c : HclBodyContent) : BodyContent :=
  .mk (c.attributes.map fun p => (p.1, fromHCLAttribute p.2))
    (c.blocks.map fromHCLBlock)

/-! ## The helper test Runner (helper package) -/

/-- Replace the body of an extracted block (Go field assignment b.Body). -/
def Block.setBody : Block → Option BodyContent → Block
  | .mk t labels _ defR typeR labelRs, nb => .mk t labels nb defR typeR labelRs

/-- Go map assignment on the merged attribute map of getModuleContent. -/
def upsertAttr (m : List (String × Attribute)) (k : String) (v : Attribute) :
    List (String × Attribute) :=
  if m.any fun p => p.1 == k then
    m.map fun p => if p.1 == k then (k, v) else p
  else m ++ [(k, v)]

/-- helper runner.go extractBlockContent as observed by its only caller:
the returned error is discarded there, so a diagnostics failure collapses
to a nil nested content, exactly as a nil schema does. -/
def extractBlockContent (body : HclBody) (schema : Option BodySchema) :
    Option BodyContent :=
  match schema with
  | none => none
  | some s =>
    let pc := hclPartialContent body (toHCLBodySchema (some s))
    if pc.2 then none else some (fromHCLBodyContent pc.1)

/-- The per-file step of helper runner.go getModuleContent: run
PartialContent under the flat schema, merge attributes, append blocks; for
each appended block, the last schema entry with a matching type and a
non-nil nested body resolves the block body one level via
extractBlockContent. -/
def getModuleContentFile (schema : Option BodySchema) (acc : BodyContent)
    (body : HclBody) : Except String BodyContent :=
  let pc := hclPartialContent body (toHCLBodySchema schema)
  if pc.2 then .error "diagnostics" else
  let attrs := pc.1.attributes.foldl
    (fun m p => upsertAttr m p.1 (fromHCLAttribute p.2)) acc.attributes
  let blocks := acc.blocks ++ pc.1.blocks.map fun hb =>
    let b0 := fromHCLBlock hb
    match schema with
    | none => b0
    | some s =>
      s.blocks.foldl
        (fun b bs =>
          if bs.type == hb.type && bs.body.isSome then
            b.setBody (extractBlockContent hb.body bs.body)
          else b)
        b0
  .ok (.mk attrs blocks)

/-- helper runner.go getModuleContent: fold the parsed files. -/
def getModuleContent (files : List (String × HclBody))
    (schema : Option BodySchema) : Except String BodyContent :=
  files.foldlM (fun acc f => getModuleContentFile schema acc f.2) (.mk [] [])

/-- The internal schema built by helper runner.go getResourceContent:
blocks of type "resource" with two positional labels and the callers
requested schema as nested body. -/
def resourceSchemaFor (bodySchema : Option BodySchema) : BodySchema :=
  .mk [] [.mk "resource" ["type", "name"] bodySchema] 0

/-- helper runner.go getResourceContent: retrieve full module content under
the internal resource schema, then keep only the blocks whose first label
equals the requested resource type. -/
def getResourceContent (files : List (String × HclBody))
    (resourceType : String) (bodySchema : Option BodySchema) :
    Except String BodyContent :=
  match getModuleContent files (some (resourceSchemaFor bodySchema)) with
  | .error e => .error e
  | .ok allContent =>
    .ok (.mk [] (allContent.blocks.filter fun b =>
      b.type == "resource" && decide (1 ≤ b.labels.length) &&
        b.labels.head? == some resourceType))

/-- helper issue.go Issue: a recorded finding. The Rule field holds the
rule value handed to EmitIssue and may be nil. -/
structure Issue where
  rule : Option Rule
  message : String
  range : Range
deriving DecidableEq, Repr

/-- helper.Runner: parsed old and new files plus the recorded issues. -/
structure TestRunnerState where
  oldFiles : List (String × HclBody)
  newFiles : List (String × HclBody)
  issues : List Issue

/-- helper Runner.GetOldModuleContent. -/
def TestRunnerState.getOldModuleContent (r : TestRunnerState)
    (schema : Option BodySchema) : Except String BodyContent :=
  getModuleContent r.oldFiles schema

/-- helper Runner.GetNewModuleContent. -/
def TestRunnerState.getNewModuleContent (r : TestRunnerState)
    (schema : Option BodySchema) : Except String BodyContent :=
  getModuleContent r.newFiles schema

/-- helper Runner.GetOldResourceContent. -/
def TestRunnerState.getOldResourceContent (r : TestRunnerState)
    (resourceType : String) (schema : Option BodySchema) :
    Except String BodyContent :=
  getResourceContent r.oldFiles resourceType schema

/-- helper Runner.GetNewResourceContent. -/
def TestRunnerState.getNewResourceContent (r : TestRunnerState)
    (resourceType : String) (schema : Option BodySchema) :
    Except String BodyContent :=
  getResourceContent r.newFiles resourceType schema

/-- helper Runner.EmitIssue: append the issue exactly as given and return
the nil error. -/
def TestRunnerState.emitIssue (r : TestRunnerState) (rule : Option Rule)
    (message : String) (issueRange : Range) : TestRunnerState × Option String :=
  ({ r with issues := r.issues ++ [⟨rule, message, issueRange⟩] }, none)

/-! ## The EmitIssue bridge (grpc_runner.go)

GRPCRunnerClient.EmitIssue marshals the rule, message and range into a
request; GRPCRunnerServer.EmitIssue reconstructs a minimal rule value from
the wire descriptor through the generated nil-tolerant getters (a nil
message yields zero values) and forwards to the wrapped recorder. The
transport itself is assumed to deliver the request. -/

/-- proto.Rule: the one-directional rule descriptor. -/
structure PbRule where
  name : String
  enabled : Bool
  severity : PbSeverity
  link : String
deriving DecidableEq, Repr

/-- convert.go toProtoRule: nil maps to nil, otherwise a field snapshot. -/
def toProtoRule : Option Rule → Option PbRule
  | none => none
  | some r => some ⟨r.name, r.enabled, toProtoSeverity r.severity, r.link⟩

/-- proto.EmitIssue_Request. -/
structure EmitIssueRequest where
  rule : Option PbRule
  message : String
  range : Option PbRange

/-- GRPCRunnerServer.EmitIssue over a helper recorder: reconstruct the
minimal rule (nil-tolerant getters, wire severity decoding) and forward. -/
def serverEmitIssue (r : TestRunnerState) (req : EmitIssueRequest) :
    TestRunnerState × Option String :=
  let rule : Rule :=
    { name := (req.rule.map PbRule.name).getD ""
      enabled := (req.rule.map PbRule.enabled).getD false
      severity := fromProtoSeverity ((req.rule.map PbRule.severity).getD .unspecified)
      link := (req.rule.map PbRule.link).getD "" }
  r.emitIssue (some rule) req.message (fromProtoRange req.range)

/-- GRPCRunnerClient.EmitIssue composed with GRPCRunnerServer.EmitIssue:
one EmitIssue crossing of the Reverse-Service bridge, recorded by a helper
recorder on the far side. -/
def bridgeEmitIssue (r : TestRunnerState) (rule : Option Rule)
    (message : String) (issueRange : Range) : TestRunnerState × Option String :=
  serverEmitIssue r ⟨toProtoRule rule, message, some (toProtoRange issueRange)⟩

/-! ## Concrete scenario data and projections used by the theorems -/

/-- An attribute carrying a live, statically evaluable expression, as
produced in-process by the parser. -/
def liveAttr : Attribute :=
  ⟨"location", some ⟨some ⟨"westeurope"⟩⟩, none, Range.zero, Range.zero⟩

/-- A body content holding one live attribute. -/
def liveContent : BodyContent := .mk [("location", liveAttr)] []

/-- Whether any attribute of a content still carries a live expression. -/
def anyAttrExprIsSome : Option BodyContent → Bool
  | some (.mk attrs _) => attrs.any fun p => p.2.expr.isSome
  | none => false

/-- A sample non-zero source range. -/
def sampleRange : Range := ⟨"main.tf", ⟨1, 2, 3⟩, ⟨4, 5, 6⟩⟩

/-- The content of an Except result (zero content on error). -/
def okContent (e : Except String BodyContent) : BodyContent :=
  match e with
  | .ok c => c
  | .error _ => .mk [] []

/-- The first returned block of an Except result, when any. -/
def firstBlock (e : Except String BodyContent) : Option Block :=
  match e with
  | .ok c => c.blocks.head?
  | .error _ => none

/-- A parsed resource body with a single name attribute. -/
def namedBody (v : String) : HclBody :=
  .mk [⟨"name", ⟨some ⟨v⟩⟩, Range.zero, Range.zero⟩] []

/-- The old configuration of the C5 scenario: two azurerm_resource_group
resource blocks and one azurerm_virtual_network resource block. -/
def c5File : HclBody :=
  .mk []
    [.mk "resource" ["azurerm_resource_group", "rg"] (namedBody "my-rg")
        Range.zero Range.zero [Range.zero, Range.zero],
      .mk "resource" ["azurerm_virtual_network", "vnet"] (namedBody "my-vnet")
        Range.zero Range.zero [Range.zero, Range.zero],
      .mk "resource" ["azurerm_resource_group", "rg2"] (namedBody "my-rg-2")
        Range.zero Range.zero [Range.zero, Range.zero]]

/-- The helper runner of the C5 scenario. -/
def c5Runner : TestRunnerState := ⟨[("main.tf", c5File)], [], []⟩

/-- The requested schema of the C5 scenario: the name attribute. -/
def c5Schema : Option BodySchema := some (.mk [⟨"name", false⟩] [] 0)

/-- The evaluated result content of the C5 scenario. -/
def c5Content : BodyContent :=
  okContent (c5Runner.getOldResourceContent "azurerm_resource_group" c5Schema)

/-- The parsed cors_rule body of the deep-nesting scenario. -/
def corsBody : HclBody :=
  .mk [⟨"allowed_methods", ⟨some ⟨"GET-POST"⟩⟩, Range.zero, Range.zero⟩,
      ⟨"allowed_origins", ⟨some ⟨"star"⟩⟩, Range.zero, Range.zero⟩] []

/-- The parsed blob_properties body of the deep-nesting scenario. -/
def blobBody : HclBody :=
  .mk [⟨"versioning_enabled", ⟨some ⟨"true"⟩⟩, Range.zero, Range.zero⟩]
    [.mk "cors_rule" [] corsBody Range.zero Range.zero []]

/-- The parsed storage account body of the deep-nesting scenario. -/
def storageBody : HclBody :=
  .mk [⟨"name", ⟨some ⟨"storageacct"⟩⟩, Range.zero, Range.zero⟩]
    [.mk "blob_properties" [] blobBody Range.zero Range.zero []]

/-- The old files of the deep-nesting scenario, mirroring the repository
test TestRunner_GetResourceContent_DeeplyNested. -/
def c6Files : List (String × HclBody) :=
  [("main.tf",
    .mk [] [.mk "resource" ["azurerm_storage_account", "example"] storageBody
      Range.zero Range.zero [Range.zero, Range.zero]])]

/-- The three-level schema of the deep-nesting scenario: resource body with
blob_properties whose body requests cors_rule with its own body. -/
def c6Schema : Option BodySchema :=
  some (.mk [⟨"name", false⟩]
    [.mk "blob_properties" []
      (some (.mk [⟨"versioning_enabled", false⟩]
        [.mk "cors_rule" []
          (some (.mk [⟨"allowed_methods", false⟩, ⟨"allowed_origins", false⟩]
            [] 0))]
        0))]
    0)

/-- The evaluated result of the deep-nesting scenario. -/
def c6Result : Except String BodyContent :=
  getResourceContent c6Files "azurerm_storage_account" c6Schema

/-- A one-rule registry whose rule is enabled by default. -/
def c2RS : BuiltinRuleSet :=
  ⟨"test", "0.1.0", "", [⟨"a", true, Severity.ERROR, ""⟩], none⟩

/-- A config that puts rule a in Only yet disables it per-rule. -/
def c2Cfg : Config := ⟨[("a", ⟨"a", false⟩)], true, ["a"], ""⟩

/-- A two-rule registry with opposite defaults, no per-rule config. -/
def w2RS : BuiltinRuleSet :=
  ⟨"test", "0.1.0", "",
    [⟨"a", false, Severity.ERROR, ""⟩, ⟨"b", true, Severity.ERROR, ""⟩], none⟩

/-- A config selecting only rule a, with rules disabled by default. -/
def w2Cfg : Config := ⟨[], true, ["a"], ""⟩

/-- A one-rule registry whose rule is disabled by default. -/
def w3RS : BuiltinRuleSet :=
  ⟨"test", "0.1.0", "", [⟨"a", false, Severity.ERROR, ""⟩], none⟩

/-- A config excluding rule a by Only but re-enabling it per-rule. -/
def w3Cfg : Config := ⟨[("a", ⟨"a", true⟩)], false, ["b"], ""⟩

/-- An RPC stub connection on which every metadata call fails. -/
def failingRPC : RuleSetRPC :=
  ⟨.error "transport", .error "transport", .error "transport",
    .error "transport", .error "transport"⟩

/-- Whether an Except result is a success. -/
def isOk : Except String BodyContent → Bool
  | .ok _ => true
  | .error _ => false

/-! ## Theorems -/

mutual
theorem fromProto_toProto_bodySchema (s : Option BodySchema) :
    fromProtoBodySchema (toProtoBodySchema s) = s := by
  match s with
  | none => rfl
  | some (.mk attrs blocks mode) =>
    simp only [toProtoBodySchema, fromProtoBodySchema,
      fromProto_toProto_blockSchemas blocks, List.map_map]
    have h : attrs.map
        ((fun (a : PbAttributeSchema) => (⟨a.name, a.required⟩ : AttributeSchema)) ∘
          (fun (a : AttributeSchema) => (⟨a.name, a.required⟩ : PbAttributeSchema)))
        = attrs.map id := rfl
    rw [h, List.map_id]

theorem fromProto_toProto_blockSchemas (bs : List BlockSchema) :
    fromProtoBlockSchemas (toProtoBlockSchemas bs) = bs := by
  match bs with
  | [] => rfl
  | b :: rest =>
    simp only [toProtoBlockSchemas, fromProtoBlockSchemas,
      fromProto_toProto_blockSchema b, fromProto_toProto_blockSchemas rest]

theorem fromProto_toProto_blockSchema (b : BlockSchema) :
    fromProtoBlockSchema (toProtoBlockSchema b) = b := by
  match b with
  | .mk t labels body =>
    simp only [toProtoBlockSchema, fromProtoBlockSchema,
      fromProto_toProto_bodySchema body]
end

theorem fromProto_toProto_range (r : Range) :
    fromProtoRange (some (toProtoRange r)) = r := rfl

theorem fromProto_toProto_position (p : Pos) :
    fromProtoPosition (some (toProtoPosition p)) = p := rfl

theorem fromProto_toProto_attribute (a : Attribute) :
    fromProtoAttributeCore (toProtoAttributeCore a) = snapshotAttribute a := rfl

mutual
theorem fromProto_toProto_bodyContent (c : Option BodyContent) :
    fromProtoBodyContent (toProtoBodyContent c) = snapshotBodyContent c := by
  match c with
  | none => rfl
  | some (.mk attrs blocks) =>
    simp only [toProtoBodyContent, fromProtoBodyContent, snapshotBodyContent,
      fromProto_toProto_blocks blocks, List.map_map]
    have h : attrs.map
        ((fun (p : String × PbAttribute) => (p.1, fromProtoAttributeCore p.2)) ∘
          (fun (p : String × Attribute) => (p.1, toProtoAttributeCore p.2)))
        = attrs.map (fun p => (p.1, snapshotAttribute p.2)) := rfl
    rw [h]

theorem fromProto_toProto_blocks (bs : List Block) :
    fromProtoBlocks (toProtoBlocks bs) = snapshotBlocks bs := by
  match bs with
  | [] => rfl
  | b :: rest =>
    simp only [toProtoBlocks, fromProtoBlocks, snapshotBlocks,
      fromProto_toProto_block b, fromProto_toProto_blocks rest]

theorem fromProto_toProto_block (b : Block) :
    fromProtoBlock (toProtoBlock b) = snapshotBlock b := by
  match b with
  | .mk t labels body defR typeR labelRs =>
    simp only [toProtoBlock, fromProtoBlock, snapshotBlock,
      fromProto_toProto_bodyContent body, fromProto_toProto_range,
      List.map_map]
    have h : labelRs.map
        (fromProtoRange ∘ (fun r => some (toProtoRange r)))
        = labelRs.map id := rfl
    rw [h, List.map_id]
end

/-! ### Enablement map lemmas -/

theorem mapSet_same (m : String → Option Bool) (k : String) (v : Bool) :
    mapSet m k v k = some v := by
  simp [mapSet]

theorem mapSet_other (m : String → Option Bool) (k : String) (v : Bool)
    (x : String) (h : x ≠ k) : mapSet m k v x = m x := by
  simp [mapSet, h]

theorem initFold_notMem (rules : List Rule) (m : String → Option Bool)
    (k : String) (hk : k ∉ rules.map Rule.name) :
    (rules.foldl (fun m r => mapSet m r.name r.enabled) m) k = m k := by
  induction rules generalizing m with
  | nil => rfl
  | cons x xs ih =>
    simp only [List.map_cons, List.mem_cons, not_or] at hk
    simp only [List.foldl_cons]
    rw [ih _ hk.2, mapSet_other _ _ _ _ hk.1]

theorem initFold_isSome (rules : List Rule) (m : String → Option Bool)
    (k : String) :
    ((rules.foldl (fun m r => mapSet m r.name r.enabled) m) k).isSome
      = (decide (k ∈ rules.map Rule.name) || (m k).isSome) := by
  induction rules generalizing m with
  | nil => simp
  | cons x xs ih =>
    simp only [List.foldl_cons, ih, List.map_cons, List.mem_cons]
    by_cases hx : k = x.name
    · subst hx
      simp [mapSet]
    · simp [mapSet, hx]

theorem initFold_mem_nodup (rules : List Rule) (m : String → Option Bool)
    (r : Rule) (hnd : (rules.map Rule.name).Nodup) (hr : r ∈ rules) :
    (rules.foldl (fun m r => mapSet m r.name r.enabled) m) r.name
      = some r.enabled := by
  induction rules generalizing m with
  | nil => cases hr
  | cons x xs ih =>
    simp only [List.map_cons, List.nodup_cons] at hnd
    simp only [List.foldl_cons]
    rcases List.mem_cons.mp hr with h | h
    · subst h
      rw [initFold_notMem _ _ _ hnd.1, mapSet_same]
    · exact ih _ hnd.2 h

theorem initEnabled_isSome_of_mem (rules : List Rule) (r : Rule)
    (hr : r ∈ rules) : (initEnabled rules r.name).isSome = true := by
  unfold initEnabled
  rw [initFold_isSome]
  simp only [Bool.or_eq_true, decide_eq_true_eq, List.mem_map]
  exact Or.inl ⟨r, hr, rfl⟩

theorem setTrueFold (l : List String) (m : String → Option Bool)
    (k : String) :
    (l.foldl (fun m n => if (m n).isSome then mapSet m n true else m) m) k
      = if (m k).isSome ∧ k ∈ l then some true else m k := by
  induction l generalizing m with
  | nil => simp
  | cons a l ih =>
    simp only [List.foldl_cons]
    by_cases hma : (m a).isSome
    · rw [if_pos hma, ih]
      by_cases hka : k = a
      · subst hka
        simp [mapSet, hma]
      · rw [mapSet_other _ _ _ _ hka]
        simp [List.mem_cons, hka]
    · rw [if_neg hma, ih]
      by_cases hka : k = a
      · subst hka
        simp [hma]
      · simp [List.mem_cons, hka]

theorem disableAll_isSome (m : String → Option Bool) (k : String) :
    ((disableAll m) k).isSome = (m k).isSome := by
  simp [disableAll]

theorem applyOnly_eq (m : String → Option Bool) (only : List String)
    (k : String) :
    applyOnly m only k
      = if (m k).isSome ∧ k ∈ only then some true else (disableAll m) k := by
  unfold applyOnly
  rw [setTrueFold]
  simp [disableAll]

theorem applyOnly_isSome (m : String → Option Bool) (only : List String)
    (k : String) : ((applyOnly m only) k).isSome = (m k).isSome := by
  rw [applyOnly_eq]
  by_cases h : (m k).isSome ∧ k ∈ only
  · simp [h]
  · simp [h, disableAll]

theorem rcFold_notMem (l : List (String × RuleConfig))
    (m : String → Option Bool) (k : String) (hk : ∀ p ∈ l, p.1 ≠ k) :
    (l.foldl
        (fun m p => if (m p.1).isSome then mapSet m p.1 p.2.enabled else m) m) k
      = m k := by
  induction l generalizing m with
  | nil => rfl
  | cons p l ih =>
    simp only [List.foldl_cons]
    rw [ih _ (fun q hq => hk q (List.mem_cons_of_mem _ hq))]
    by_cases hp : (m p.1).isSome
    · rw [if_pos hp, mapSet_other]
      intro h
      exact hk p (List.mem_cons_self _ _) h.symm
    · rw [if_neg hp]

theorem rcFold_mem (l : List (String × RuleConfig))
    (m : String → Option Bool) (k : String) (rc : RuleConfig)
    (hpw : l.Pairwise (fun p q => p.1 ≠ q.1)) (hmem : (k, rc) ∈ l)
    (hk : (m k).isSome = true) :
    (l.foldl
        (fun m p => if (m p.1).isSome then mapSet m p.1 p.2.enabled else m) m) k
      = some rc.enabled := by
  induction l generalizing m with
  | nil => cases hmem
  | cons p l ih =>
    rw [List.pairwise_cons] at hpw
    simp only [List.foldl_cons]
    rcases List.mem_cons.mp hmem with h | h
    · cases h.symm
      rw [if_pos hk, rcFold_notMem, mapSet_same]
      intro q hq hqk
      exact hpw.1 q hq hqk.symm
    · have hk2 :
          ((if (m p.1).isSome then mapSet m p.1 p.2.enabled else m) k).isSome
            = true := by
        by_cases hp : (m p.1).isSome
        · rw [if_pos hp]
          by_cases hkp : k = p.1
          · subst hkp
            rw [mapSet_same]
            rfl
          · rw [mapSet_other _ _ _ _ hkp]
            exact hk
        · rw [if_neg hp]
          exact hk
      exact ih _ hpw.2 h hk2

theorem applyMap_split (rules : List Rule) (c : Config) (k : String)
    (hs : (initEnabled rules k).isSome = true) :
    ∃ m2, applyGlobalConfigMap rules (some c) = applyRuleConfigs m2 c.rules
      ∧ (m2 k).isSome = true := by
  unfold applyGlobalConfigMap
  by_cases hdd : c.disabledByDefault <;>
    by_cases hol : c.only.length > 0 <;>
      simp only [hdd, hol, if_true, if_false, Bool.false_eq_true] <;>
        refine ⟨_, rfl, ?_⟩
  · rw [applyOnly_isSome, disableAll_isSome]
    exact hs
  · rw [disableAll_isSome]
    exact hs
  · rw [applyOnly_isSome]
    exact hs
  · exact hs

theorem find_name_nodup (rules : List Rule) (r : Rule)
    (hnd : (rules.map Rule.name).Nodup) (hr : r ∈ rules) :
    rules.find? (fun x => x.name = r.name) = some r := by
  induction rules with
  | nil => cases hr
  | cons x xs ih =>
    simp only [List.map_cons, List.nodup_cons] at hnd
    rcases List.mem_cons.mp hr with h | h
    · subst h
      rw [List.find?_cons_of_pos]
      simp
    · have hne : x.name ≠ r.name := by
        intro he
        exact hnd.1 (he ▸ List.mem_map_of_mem Rule.name h)
      rw [List.find?_cons_of_neg]
      · exact ih hnd.2 h
      · simp [hne]

/-- C2 (amended): for a Config with DisabledByDefault=true and a non-empty
Only list, every registered rule without a per-rule RuleConfig entry is
enabled exactly when its name appears in Only, regardless of its default.
(The per-rule entries are exempt: they are applied last and override the
Only exclusion, which is what the counterexample exhibits.) -/
theorem only_enablement (rs : BuiltinRuleSet) (cfg : Config) (r : Rule)
    (hdd : cfg.disabledByDefault = true) (ho : cfg.only ≠ [])
    (hr : r ∈ rs.rules) (hnc : ∀ p ∈ cfg.rules, p.1 ≠ r.name) :
    (((rs.applyGlobalConfig (some cfg)).1.isRuleEnabled r.name) = true)
      ↔ r.name ∈ cfg.only := by
  have hs := initEnabled_isSome_of_mem rs.rules r hr
  obtain ⟨b0, hb0⟩ := Option.isSome_iff_exists.mp hs
  have hlen : cfg.only.length > 0 := List.length_pos.mpr ho
  have hmap : applyGlobalConfigMap rs.rules (some cfg)
      = applyRuleConfigs (applyOnly (disableAll (initEnabled rs.rules))
          cfg.only) cfg.rules := by
    simp [applyGlobalConfigMap, hdd, hlen]
  have hnotm : applyRuleConfigs (applyOnly (disableAll (initEnabled rs.rules))
      cfg.only) cfg.rules r.name
      = applyOnly (disableAll (initEnabled rs.rules)) cfg.only r.name :=
    rcFold_notMem _ _ _ hnc
  have hval : applyGlobalConfigMap rs.rules (some cfg) r.name
      = if r.name ∈ cfg.only then some true else some false := by
    rw [hmap, hnotm, applyOnly_eq]
    by_cases hmem : r.name ∈ cfg.only
    · simp [disableAll_isSome, hs, hmem]
    · simp [disableAll_isSome, hs, hmem, disableAll, hb0]
  show (((applyGlobalConfigMap rs.rules (some cfg)) r.name).getD false = true)
    ↔ r.name ∈ cfg.only
  rw [hval]
  by_cases hmem : r.name ∈ cfg.only <;> simp [hmem]

/-- C2 counterexample: with registry [a], DisabledByDefault=true,
Only=[a], but a per-rule entry disabling a, the claim as stated predicts a
enabled; the code leaves a disabled because the per-rule step runs last. -/
theorem only_enablement_counterexample :
    ¬ ((c2RS.applyGlobalConfig (some c2Cfg)).1.isRuleEnabled "a" = true) := by
  decide

/-- C2 witness: registry [a (default false), b (default true)], config with
DisabledByDefault=true, Only=[a], no per-rule entries: a is enabled, b is
disabled, both against their defaults. -/
theorem only_enablement_witness :
    ((w2RS.applyGlobalConfig (some w2Cfg)).1.isRuleEnabled "a" = true)
    ∧ ¬ ((w2RS.applyGlobalConfig (some w2Cfg)).1.isRuleEnabled "b" = true) := by
  constructor
  · exact (only_enablement w2RS w2Cfg ⟨"a", false, Severity.ERROR, ""⟩ rfl
      (by decide) (by decide) (by decide)).mpr (by decide)
  · intro hb
    have hmem := (only_enablement w2RS w2Cfg ⟨"b", true, Severity.ERROR, ""⟩ rfl
      (by decide) (by decide) (by decide)).mp hb
    exact absurd hmem (by decide)

/-- C3: a RuleConfig entry for a registered rule excluded by a non-empty
Only list wins: the final enablement equals that RuleConfig.Enabled value,
so a per-rule entry can re-enable a rule excluded by Only. -/
theorem ruleConfig_overrides_only (rs : BuiltinRuleSet) (cfg : Config)
    (r : Rule) (rc : RuleConfig) (hr : r ∈ rs.rules)
    (hpw : cfg.rules.Pairwise fun p q => p.1 ≠ q.1)
    (hmem : (r.name, rc) ∈ cfg.rules)
    (ho : cfg.only ≠ []) (hexcl : r.name ∉ cfg.only) :
    (rs.applyGlobalConfig (some cfg)).1.isRuleEnabled r.name = rc.enabled := by
  have hs := initEnabled_isSome_of_mem rs.rules r hr
  obtain ⟨m2, hm2, hsm2⟩ := applyMap_split rs.rules cfg r.name hs
  show ((applyGlobalConfigMap rs.rules (some cfg)) r.name).getD false
    = rc.enabled
  rw [hm2,
    show applyRuleConfigs m2 cfg.rules r.name = some rc.enabled from
      rcFold_mem cfg.rules m2 r.name rc hpw hmem hsm2]
  rfl

/-- C3 witness: rule a is disabled by default and excluded by Only=[b],
yet the per-rule entry enabling a re-enables it. -/
theorem ruleConfig_overrides_only_witness :
    (w3RS.applyGlobalConfig (some w3Cfg)).1.isRuleEnabled "a" = true :=
  ruleConfig_overrides_only w3RS w3Cfg ⟨"a", false, Severity.ERROR, ""⟩
    ⟨"a", true⟩ (by decide) (by simp [w3Cfg]) (by decide) (by decide)
    (by decide)

/-- C7: before ApplyGlobalConfig has ever run (nil enablement map),
IsRuleEnabled returns the registered rules own default Enabled value. -/
theorem isRuleEnabled_default_before_config (rs : BuiltinRuleSet) (r : Rule)
    (hcfg : rs.enabledRules = none)
    (hnd : (rs.rules.map Rule.name).Nodup) (hr : r ∈ rs.rules) :
    rs.isRuleEnabled r.name = r.enabled := by
  have hf := find_name_nodup rs.rules r hnd hr
  simp [BuiltinRuleSet.isRuleEnabled, hcfg, hf]

/-- C7 witness: rule b defaults to enabled; an unconfigured ruleset reports
it enabled, not disabled. -/
theorem isRuleEnabled_default_before_config_witness :
    w2RS.isRuleEnabled "b" = true :=
  isRuleEnabled_default_before_config w2RS ⟨"b", true, Severity.ERROR, ""⟩
    rfl (by decide) (by decide)

/-- C10: ApplyGlobalConfig returns a nil error on every input including a
nil config, and a nil config leaves every registered rule at its own
default enablement. -/
theorem applyGlobalConfig_total (rs : BuiltinRuleSet) (cfg : Option Config) :
    (rs.applyGlobalConfig cfg).2 = none
    ∧ (cfg = none → (rs.rules.map Rule.name).Nodup →
        ∀ r ∈ rs.rules,
          (rs.applyGlobalConfig cfg).1.isRuleEnabled r.name = r.enabled) := by
  refine ⟨rfl, ?_⟩
  rintro rfl hnd r hr
  show ((applyGlobalConfigMap rs.rules none) r.name).getD false = r.enabled
  rw [show applyGlobalConfigMap rs.rules none r.name = some r.enabled from
    initFold_mem_nodup rs.rules _ r hnd hr]
  rfl

/-- C10 witness: the nil error and the default enablement of rule a after a
nil config. -/
theorem applyGlobalConfig_total_witness :
    ((w2RS.applyGlobalConfig none).2 = none)
    ∧ (w2RS.applyGlobalConfig none).1.isRuleEnabled "a" = false :=
  ⟨(applyGlobalConfig_total w2RS none).1,
   (applyGlobalConfig_total w2RS none).2 rfl (by decide)
     ⟨"a", false, Severity.ERROR, ""⟩ (by decide)⟩

/-! ### Check pass aggregation -/

theorem checkErrors_length (rules : List CheckedRule) :
    (checkErrors rules).length
      = (rules.filter fun r => r.checkResult.isSome).length := by
  induction rules with
  | nil => rfl
  | cons r rs ih =>
    cases h : r.checkResult <;>
      simp [checkErrors, List.filterMap_cons, List.filter_cons, h,
        checkErrors] at ih ⊢ <;> omega

theorem checkErrors_eq_nil_iff (rules : List CheckedRule) :
    checkErrors rules = [] ↔ (rules.filter fun r => r.checkResult.isSome) = [] := by
  constructor
  · intro h
    have hl := checkErrors_length rules
    rw [h] at hl
    simp only [List.length_nil] at hl
    exact List.length_eq_zero.mp hl.symm
  · intro h
    have hl := checkErrors_length rules
    rw [h] at hl
    simp only [List.length_nil] at hl
    exact List.length_eq_zero.mp hl

/-- C1: a Check pass succeeds exactly when no rule failed; each failure is
recorded as the rule name attached to its error and the loop records every
failing rule; one accumulated error is returned unwrapped; two or more are
combined into a single error stating the count, joined by semicolons. -/
theorem check_error_aggregation (rules : List CheckedRule) :
    (checkPass rules = none
      ↔ (rules.filter fun r => r.checkResult.isSome) = [])
    ∧ (checkErrors rules).length
        = (rules.filter fun r => r.checkResult.isSome).length
    ∧ (∀ r ∈ rules, ∀ e, r.checkResult = some e →
        ("rule " ++ r.name ++ ": " ++ e) ∈ checkErrors rules)
    ∧ (∀ e, checkErrors rules = [e] → checkPass rules = some e)
    ∧ (2 ≤ (checkErrors rules).length →
        checkPass rules
          = some (toString (checkErrors rules).length ++ " rules failed: "
              ++ String.intercalate "; " (checkErrors rules))) := by
  refine ⟨?_, checkErrors_length rules, ?_, ?_, ?_⟩
  · constructor
    · intro h
      rw [← checkErrors_eq_nil_iff]
      by_contra hne
      obtain ⟨e, es, hE⟩ := List.exists_cons_of_ne_nil hne
      rw [checkPass, hE] at h
      cases es <;> simp [combineErrors] at h
    · intro h
      have hE := (checkErrors_eq_nil_iff rules).mpr h
      simp [checkPass, hE]
  · intro r hr e hre
    exact List.mem_filterMap.mpr ⟨r, hr, by simp [hre]⟩
  · intro e hE
    simp [checkPass, hE, combineErrors]
  · intro h2
    rcases hE : checkErrors rules with _ | ⟨e, es⟩
    · rw [hE] at h2
      simp at h2
    · rcases es with _ | ⟨e2, es2⟩
      · rw [hE] at h2
        simp at h2
      · simp [checkPass, hE, combineErrors]

/-- C1 witness: a pass of two failing rules yields one combined error
stating the count and both messages, with the concrete text shown. -/
theorem check_error_aggregation_witness :
    2 ≤ (checkErrors [⟨"r1", some "boom"⟩, ⟨"r2", some "bang"⟩]).length
    ∧ checkPass [⟨"r1", some "boom"⟩, ⟨"r2", some "bang"⟩]
        = some (toString
            (checkErrors [⟨"r1", some "boom"⟩, ⟨"r2", some "bang"⟩]).length
          ++ " rules failed: "
          ++ String.intercalate "; "
            (checkErrors [⟨"r1", some "boom"⟩, ⟨"r2", some "bang"⟩]))
    ∧ checkPass [⟨"r1", some "boom"⟩, ⟨"r2", some "bang"⟩]
        = some "2 rules failed: rule r1: boom; rule r2: bang" :=
  ⟨by decide,
   (check_error_aggregation [⟨"r1", some "boom"⟩, ⟨"r2", some "bang"⟩]).2.2.2.2
     (by decide),
   by decide⟩

/-! ### Host-side metadata getters -/

/-- C8: whenever the underlying RPC fails, each metadata getter of the
host-side client returns its neutral default instead of the error. -/
theorem metadata_getters_default (c : RuleSetRPC) :
    (∀ e, c.getRuleSetName = .error e → clientRuleSetName c = "")
    ∧ (∀ e, c.getRuleSetVersion = .error e → clientRuleSetVersion c = "")
    ∧ (∀ e, c.getRuleNames = .error e → clientRuleNames c = [])
    ∧ (∀ e, c.getVersionConstraint = .error e → clientVersionConstraint c = "")
    ∧ (∀ e, c.getConfigSchema = .error e → clientConfigSchema c = none) := by
  refine ⟨?_, ?_, ?_, ?_, ?_⟩ <;> intro e h <;>
    simp [clientRuleSetName, clientRuleSetVersion, clientRuleNames,
      clientVersionConstraint, clientConfigSchema, h]

/-- C8 witness: a connection on which every call fails yields the five
neutral defaults. -/
theorem metadata_getters_default_witness :
    clientRuleSetName failingRPC = ""
    ∧ clientRuleSetVersion failingRPC = ""
    ∧ clientRuleNames failingRPC = []
    ∧ clientVersionConstraint failingRPC = ""
    ∧ clientConfigSchema failingRPC = none :=
  ⟨(metadata_getters_default failingRPC).1 "transport" rfl,
   (metadata_getters_default failingRPC).2.1 "transport" rfl,
   (metadata_getters_default failingRPC).2.2.1 "transport" rfl,
   (metadata_getters_default failingRPC).2.2.2.1 "transport" rfl,
   (metadata_getters_default failingRPC).2.2.2.2 "transport" rfl⟩

/-! ### Marshaling round trips -/

/-- C4 (amended): decoding the encoded wire form is the identity on
schemas, ranges, positions (byte offsets included, which is stronger than
the claims "ignoring byte offsets"), and on the three valid severities;
body content, however, round-trips to its snapshot: structure, labels and
ranges are reproduced, while each attribute loses its expression and
carries at most the one-shot static value of that expression (a previously
populated Value field is not re-encoded). -/
theorem marshal_roundtrip :
    (∀ s : Option BodySchema, fromProtoBodySchema (toProtoBodySchema s) = s)
    ∧ (∀ r : Range, fromProtoRange (some (toProtoRange r)) = r)
    ∧ (∀ p : Pos, fromProtoPosition (some (toProtoPosition p)) = p)
    ∧ (∀ v : Severity,
        v = Severity.ERROR ∨ v = Severity.WARNING ∨ v = Severity.NOTICE →
        fromProtoSeverity (toProtoSeverity v) = v)
    ∧ (∀ c : Option BodyContent,
        fromProtoBodyContent (toProtoBodyContent c) = snapshotBodyContent c) := by
  refine ⟨fromProto_toProto_bodySchema, fun r => rfl, fun p => rfl, ?_,
    fromProto_toProto_bodyContent⟩
  rintro v (rfl | rfl | rfl) <;> decide

/-- C4 counterexample: a content whose attribute carries a live expression
is not reproduced by decode after encode; the decoded attribute has no
expression. -/
theorem marshal_roundtrip_counterexample :
    fromProtoBodyContent (toProtoBodyContent (some liveContent))
      ≠ some liveContent := by
  intro h
  exact absurd (congrArg anyAttrExprIsSome h) (by decide)

/-- C4 witness: the severity round trip at NOTICE and the range round trip
at a sample range. -/
theorem marshal_roundtrip_witness :
    (Severity.NOTICE = Severity.ERROR ∨ Severity.NOTICE = Severity.WARNING
      ∨ Severity.NOTICE = Severity.NOTICE)
    ∧ fromProtoSeverity (toProtoSeverity Severity.NOTICE) = Severity.NOTICE
    ∧ fromProtoRange (some (toProtoRange sampleRange)) = sampleRange :=
  ⟨by decide,
   marshal_roundtrip.2.2.2.1 Severity.NOTICE (by decide),
   marshal_roundtrip.2.1 sampleRange⟩

/-! ### EmitIssue with a nil rule -/

/-- C9 (amended): EmitIssue with a nil rule and a zero range returns a nil
error on both recording paths; the helper Runner records exactly the nil
rule and zero range; across the Reverse-Service bridge the zero range is
preserved exactly but the nil rule is reconstructed as a non-nil minimal
descriptor with zero-valued fields (empty name, disabled, severity ERROR
by the unspecified decode fallback, empty link). -/
theorem emitIssue_nil_rule (r : TestRunnerState) (msg : String) :
    (r.emitIssue none msg Range.zero
      = ({ r with issues := r.issues ++ [⟨none, msg, Range.zero⟩] }, none))
    ∧ (bridgeEmitIssue r none msg Range.zero
      = ({ r with issues := r.issues
            ++ [⟨some ⟨"", false, Severity.ERROR, ""⟩, msg, Range.zero⟩] },
          none)) :=
  ⟨rfl, rfl⟩

/-- C9 counterexample: across the bridge the recorded rule is not nil. -/
theorem emitIssue_nil_rule_counterexample :
    (bridgeEmitIssue ⟨[], [], []⟩ none "m" Range.zero).1.issues.map Issue.rule
      ≠ [none] := by
  decide

/-! ### Resource content retrieval -/

/-- C5: getResourceContent retrieves full module content under the internal
resource schema (type "resource", two positional labels, the callers schema
as nested body) and returns exactly the blocks whose first label equals the
requested resource type; in the concrete scenario of two
azurerm_resource_group blocks and one azurerm_virtual_network block,
GetOldResourceContent returns exactly the two matching blocks, each with
first label azurerm_resource_group. -/
theorem resource_content_spec (files : List (String × HclBody)) (rt : String)
    (schema : Option BodySchema) (content : BodyContent)
    (h : getResourceContent files rt schema = .ok content) :
    (∃ allContent,
        getModuleContent files (some (resourceSchemaFor schema))
          = .ok allContent
        ∧ content = .mk [] (allContent.blocks.filter fun b =>
            b.type == "resource" && decide (1 ≤ b.labels.length) &&
              b.labels.head? == some rt))
    ∧ (∀ b ∈ content.blocks, b.type = "resource" ∧ b.labels.head? = some rt)
    ∧ ((c5Content.blocks.map fun b => (b.type, b.labels.head?))
        = [("resource", some "azurerm_resource_group"),
            ("resource", some "azurerm_resource_group")])
    ∧ isOk (c5Runner.getOldResourceContent "azurerm_resource_group" c5Schema)
        = true := by
  unfold getResourceContent at h
  rcases hall : getModuleContent files (some (resourceSchemaFor schema)) with
    e | allContent
  · rw [hall] at h
    cases h
  · rw [hall] at h
    injection h with h
    subst h
    refine ⟨⟨allContent, rfl, rfl⟩, ?_, by decide, by decide⟩
    intro b hb
    rw [BodyContent.blocks] at hb
    obtain ⟨-, hpred⟩ := List.mem_filter.mp hb
    simp only [Bool.and_eq_true, beq_iff_eq, decide_eq_true_eq] at hpred
    exact ⟨hpred.1.1, hpred.2⟩

/-- C5 witness: the theorem applied to the concrete scenario; the returned
content is exactly the evaluated result and every returned block is a
resource block whose first label is azurerm_resource_group. -/
theorem resource_content_spec_witness :
    (c5Runner.getOldResourceContent "azurerm_resource_group" c5Schema
      = .ok c5Content)
    ∧ (∀ b ∈ c5Content.blocks,
        b.type = "resource" ∧ b.labels.head? = some "azurerm_resource_group") := by
  have happ := resource_content_spec c5Runner.oldFiles "azurerm_resource_group"
    c5Schema c5Content rfl
  exact ⟨rfl, happ.2.1⟩

/-- C6 (bug exhibit): in the three-level scenario of the repository test
TestRunner_GetResourceContent_DeeplyNested, the requested schema assigns
blob_properties a nested body, the call succeeds and resolves the resource
body one level, yet the returned blob_properties block carries a nil body:
nested block bodies are not resolved recursively to arbitrary depth. -/
theorem nested_block_body_depth :
    ((c6Schema.map fun s => s.blocks.map fun b => (b.type, b.body.isSome))
      = some [("blob_properties", true)])
    ∧ isOk c6Result = true
    ∧ ((firstBlock c6Result).map Block.type) = some "resource"
    ∧ (((firstBlock c6Result).bind Block.body).map
        (fun c => c.blocks.map fun b => (b.type, b.body.isSome)))
        = some [("blob_properties", false)] :=
  ⟨by decide, by decide, by decide, by decide⟩

/-- C9 witness: the bridge crossing applied to an empty recorder. -/
theorem emitIssue_nil_rule_witness :
    bridgeEmitIssue ⟨[], [], []⟩ none "changed" Range.zero
      = (⟨[], [],
          [⟨some ⟨"", false, Severity.ERROR, ""⟩, "changed", Range.zero⟩]⟩,
         none) :=
  (emitIssue_nil_rule ⟨[], [], []⟩ "changed").2
